import Mathlib

/-!
Verification of the RAG-v6 query-processing orchestrator.

Python strings are modeled as `List Char`; Python exceptions as `Except`
values (`Except.error` = a raised exception); external collaborators (the
hosted model, the filesystem, the subprocess runner) as explicit oracle
inputs, so every embedded function is a pure, executable Lean definition
mirroring the control flow of the corresponding Python function.
-/

/-! ## Python string primitives -/

/-- Python `s.lower()` (ASCII case folding, which is all the heuristics use). -/
def pyLower (s : List Char) : List Char := s.map Char.toLower

/-- Python `s.startswith(p)`: `pyStartswith s p` is true when `p` is a prefix of `s`. -/
def pyStartswith : List Char → List Char → Bool
  | _, [] => true
  | [], _ :: _ => false
  | c :: s, p :: ps => p == c && pyStartswith s ps

/-- Python `needle in hay` substring test. -/
def pySubstr (hay needle : List Char) : Bool :=
  (List.range (hay.length + 1)).any (fun i => pyStartswith (hay.drop i) needle)

/-- Python `s.count(c)` for a single character. -/
def pyCount (s : List Char) (c : Char) : ℕ := s.count c

/-- Python `s.strip()`: drop whitespace from both ends. -/
def pyStrip (s : List Char) : List Char :=
  ((s.dropWhile Char.isWhitespace).reverse.dropWhile Char.isWhitespace).reverse

/-- Python `s.split()` with no argument: split on whitespace runs, dropping
empty pieces (so no returned word is empty or contains whitespace). -/
def pySplitWs (s : List Char) : List (List Char) :=
  (s.splitOnP (fun c => c.isWhitespace)).filter (fun w => decide (w ≠ []))

/-- Python `' '.join(ws)`. -/
def pyJoinSpace : List (List Char) → List Char
  | [] => []
  | [w] => w
  | w :: v :: ws => w ++ ' ' :: pyJoinSpace (v :: ws)

/-- Python `s.rfind(c)`: index of the last occurrence of `c` in `s`, `-1` if absent.
The index is relative to `s` itself (this relativity matters for claim C5). -/
def pyRfind (s : List Char) (c : Char) : ℤ :=
  match s.reverse.findIdx? (fun x => x = c) with
  | some i => ((s.length - 1 - i : ℕ) : ℤ)
  | none => -1

/-- Python slice `text[start:stop]` for `0 ≤ start ≤ stop` (clamped at the end). -/
def pySlice (text : List Char) (start stop : ℕ) : List Char :=
  (text.drop start).take (stop - start)

/-! ## The autonomous analysis loop (analysis_engine_exact.py, autonomous_analysis_loop)

The loop's three external interactions per iteration are oracles: the
generated script (`get_gpt4o_script`, which can raise, e.g. from the model
client or the debug-file write), the execution result dict
(`execute_script_and_analyze`, whose script-file write can raise; its
subprocess call is internally caught and returned as a result dict), and
the decision text (`ask_gpt4o_for_decision`, which can raise). An
`Except.error` models a raised exception, which the per-iteration
`try/except` catches, breaking out of the loop. -/

/-- Result dict of `execute_script_and_analyze` (keys success / output / error). -/
structure ExecResult where
  success : Bool
  output : List Char
  error : List Char
deriving DecidableEq

/-- The oracles consumed by one iteration of the loop. -/
structure IterBehavior where
  gen : Except (List Char) (List Char)
  exec : Except (List Char) ExecResult
  dec : Except (List Char) (List Char)

/-- The string "DONE" tested by `decision.startswith("DONE")`. -/
def doneTag : List Char := ['D', 'O', 'N', 'E']

/-- The string "CONTINUE" tested by `decision.startswith("CONTINUE")`. -/
def contTag : List Char := ['C', 'O', 'N', 'T', 'I', 'N', 'U', 'E']

/-- The terminal message returned when the iteration bound is exhausted
(and also after an exception or an unclear decision breaks the loop). -/
def maxIterationsMsg : List Char := "Analysis completed after maximum iterations".toList

/-- The hint appended to the prompt on a CONTINUE decision. -/
def continueSuffix : List Char := " (Previous attempt had issues, try a different approach)".toList

/-- The detailed-output heuristic guarding the raw-stdout return in the DONE
branch (analysis_engine_exact.py lines 259-261): the stdout contains "list"
and "detailed" case-insensitively, or has more than 5 newline characters, or
more than 3 "-" characters (`output_text.count('-') > 3` counts every hyphen,
wherever it occurs). -/
def detailedOutput (out : List Char) : Bool :=
  (pySubstr (pyLower out) "list".toList && pySubstr (pyLower out) "detailed".toList)
  || decide (5 < pyCount out '\n')
  || decide (3 < pyCount out '-')

/-- The `for iteration in range(1, max_iterations + 1)` loop of
`autonomous_analysis_loop`, with `fuel` = remaining iterations and `i` the
current 1-based iteration index. Returns the final answer paired with the
number of generation attempts (calls to `get_gpt4o_script`) performed. -/
def loopGo (bhv : ℕ → IterBehavior) : ℕ → ℕ → List Char → List Char × ℕ
  | 0, _, _ => (maxIterationsMsg, 0)
  | fuel + 1, i, prompt =>
    match (bhv i).gen with
    | .error _ => (maxIterationsMsg, 1)
    | .ok _script =>
      match (bhv i).exec with
      | .error _ => (maxIterationsMsg, 1)
      | .ok er =>
        match (bhv i).dec with
        | .error _ => (maxIterationsMsg, 1)
        | .ok decision =>
          if pyStartswith decision doneTag then
            let finalAnswer := pyStrip (decision.drop 5)
            if er.success && !er.output.isEmpty && detailedOutput er.output then
              (er.output, 1)
            else
              (finalAnswer, 1)
          else if pyStartswith decision contTag then
            let rest := loopGo bhv fuel (i + 1) (prompt ++ continueSuffix)
            (rest.1, rest.2 + 1)
          else
            (maxIterationsMsg, 1)

/-- `autonomous_analysis_loop(user_prompt, target_file, max_iterations)`:
answer text paired with the number of generation attempts performed. -/
def autonomous_analysis_loop (bhv : ℕ → IterBehavior) (user_prompt : List Char)
    (max_iterations : ℕ) : List Char × ℕ :=
  loopGo bhv max_iterations 1 user_prompt

/-- An iteration whose three interactions succeed and whose decision starts
with "CONTINUE". -/
def continuesOk (b : IterBehavior) : Prop :=
  (∃ s, b.gen = .ok s) ∧ (∃ r, b.exec = .ok r) ∧
    ∃ d, b.dec = .ok d ∧ pyStartswith d contTag = true

/-! ## Similarity ranking (analysis_engine_exact.py, retrieve_relevant_chunks)

`sklearn.cosine_similarity` is abstracted as an oracle `cos`: every claimed
property of the ranking is uniform in the similarity values.
`np.argsort(similarities)[::-1]` is a descending sort of the chunk indices
by similarity; numpy leaves the order of ties unspecified, and the model
fixes one concrete such permutation. -/

/-- The cosine-similarity values of the concrete embeddings used in the
witnesses below: every vector there is the unit vector [1], and the cosine
similarity of a unit vector with itself is 1. -/
def cosWitness (q e : List ℚ) : ℚ := if e = q then 1 else 0

/-- `np.argsort(similarities)[::-1]`: chunk indices in descending similarity order. -/
def argsortDesc (sims : List ℚ) : List ℕ :=
  List.insertionSort (fun i j => sims.getD j 0 ≤ sims.getD i 0) (List.range sims.length)

/-- The threshold-collection loop: walk indices in descending similarity
order, keeping those with similarity at or above the threshold while fewer
than `top_k` have been kept. -/
def thresholdPass (sortedIdx : List ℕ) (sims : List ℚ) (threshold : ℚ) (top_k : ℕ) : List ℕ :=
  sortedIdx.foldl
    (fun acc idx => if threshold ≤ sims.getD idx 0 ∧ acc.length < top_k then acc ++ [idx] else acc)
    []

/-- The index-selection core of `retrieve_relevant_chunks`: threshold pass,
then the top-5 fallback when nothing was collected. -/
def selectedIndices (sims : List ℚ) (top_k : ℕ) (threshold : ℚ) : List ℕ :=
  let sortedIdx := argsortDesc sims
  let rel := thresholdPass sortedIdx sims threshold top_k
  if rel = [] then sortedIdx.take 5 else rel

/-- `retrieve_relevant_chunks(query_embedding, chunks, chunk_embeddings, top_k,
similarity_threshold)`. The guard mirrors `if not query_embedding or not
chunk_embeddings: return chunks[:top_k]` (the degraded mode when embeddings
are unavailable). The embedded theorems all assume well-shaped inputs
(`chunks.length = chunk_embeddings.length`), under which the `chunks[i]`
lookups are in range and the surrounding `except` fallback is unreachable. -/
def retrieve_relevant_chunks (cos : List ℚ → List ℚ → ℚ) (query_embedding : List ℚ)
    (chunks : List (List Char)) (chunk_embeddings : List (List ℚ))
    (top_k : ℕ) (similarity_threshold : ℚ) : List (List Char) :=
  if query_embedding = [] ∨ chunk_embeddings = [] then chunks.take top_k
  else
    (selectedIndices (chunk_embeddings.map (cos query_embedding)) top_k similarity_threshold).map
      (fun i => chunks.getD i [])

/-! ## Word chunking (analysis_engine_exact.py, prepare_document_chunks) -/

/-- The `for i in range(0, len(words), chunk_size)` grouping of
`prepare_document_chunks`: successive groups of `chunk_size` words. With
`chunk_size = 0`, Python `range` raises ValueError, which the surrounding
`try/except` catches by returning `[]` — the first branch. -/
def wordGroups (chunk_size : ℕ) (words : List (List Char)) : List (List (List Char)) :=
  if h : chunk_size = 0 ∨ words = [] then []
  else words.take chunk_size :: wordGroups chunk_size (words.drop chunk_size)
termination_by words.length
decreasing_by
  have h1 : chunk_size ≠ 0 := fun hc => h (Or.inl hc)
  have h2 : words ≠ [] := fun hw => h (Or.inr hw)
  have : 0 < words.length := List.length_pos.mpr h2
  simp only [List.length_drop]
  omega

/-- `prepare_document_chunks(content, chunk_size)`: split the content into
whitespace-delimited words, then join each group of `chunk_size` consecutive
words back with single spaces. -/
def prepare_document_chunks (content : List Char) (chunk_size : ℕ) : List (List Char) :=
  (wordGroups chunk_size (pySplitWs content)).map pyJoinSpace

/-! ## Character-window chunking (openai_client.py, AIAnalysisEngine.chunk_document)

The `while start < len(text)` loop is modeled with explicit fuel (the loop
does not terminate for every parameter combination, e.g. `overlap >=
chunk_size`). The model covers the regime in which `start` stays
non-negative, i.e. `overlap ≤ end` at each step; Python's negative-index
slicing is never reached on the inputs evaluated here. Note that
`chunk.rfind(...)` yields an index relative to the current chunk, while the
code compares it against the absolute position `start + chunk_size // 2` and
slices `text[start:break_point + 1]` with it — this frame mixing is the
subject of claim C5. -/

/-- One run of `chunk_document`'s while-loop; `acc` accumulates stripped
chunks in reverse. The final list comprehension drops empty chunks. -/
def chunkDocGo (text : List Char) (chunk_size overlap : ℕ) :
    ℕ → ℕ → List (List Char) → List (List Char)
  | 0, _, acc => (acc.reverse).filter (fun c => decide (c ≠ []))
  | fuel + 1, start, acc =>
    if start < text.length then
      let e := start + chunk_size
      let chunk := pySlice text start e
      let adjusted : ℤ × List Char :=
        if e < text.length then
          let last_period := pyRfind chunk '.'
          let last_newline := pyRfind chunk '\n'
          let break_point := max last_period last_newline
          if (start + chunk_size / 2 : ℤ) < break_point then
            (break_point + 1, pySlice text start (break_point + 1).toNat)
          else (e, chunk)
        else (e, chunk)
      let acc2 := pyStrip adjusted.2 :: acc
      let start2 := (adjusted.1 - overlap).toNat
      if text.length ≤ start2 then (acc2.reverse).filter (fun c => decide (c ≠ []))
      else chunkDocGo text chunk_size overlap fuel start2 acc2
    else (acc.reverse).filter (fun c => decide (c ≠ []))

/-- `chunk_document(text, chunk_size, overlap)`. The fuel `text.length + 1`
suffices for every run evaluated in this development. -/
def chunk_document (text : List Char) (chunk_size overlap : ℕ) : List (List Char) :=
  chunkDocGo text chunk_size overlap (text.length + 1) 0 []

/-! ## Script executor (openai_client.py, AIAnalysisEngine.execute_script_safely)

Executing arbitrary model-generated code is abstracted as an oracle: a
script's `exec` under the restricted globals either completes, having
produced some captured stdout/stderr text, or raises a fault with a message
(in particular, referencing a name absent from the restricted builtins —
such as `open` or `__import__` — raises NameError). The `try/except` maps
the two outcomes to result dicts exactly as the source does; on a fault the
captured stdout is discarded and the message is placed in both `error` and
`stderr`. -/

/-- What a given script does when executed under the restricted globals. -/
inductive ScriptBehavior
  | completes (out err : List Char)
  | raises (msg : List Char)
deriving DecidableEq

/-- Result dict of `execute_script_safely` (the success dict additionally
carries a `variables` snapshot, irrelevant to every claim and omitted). -/
structure SafeExecResult where
  success : Bool
  stdout : List Char
  stderr : List Char
  error : Option (List Char)
deriving DecidableEq

/-- The whitelisted `__builtins__` names of the restricted execution globals. -/
def safe_builtins : List (List Char) :=
  ["print".toList, "len".toList, "str".toList, "int".toList, "float".toList,
   "list".toList, "dict".toList, "enumerate".toList, "range".toList, "zip".toList,
   "sum".toList, "max".toList, "min".toList, "sorted".toList, "any".toList, "all".toList]

/-- `execute_script_safely(script_code, file_content)`. -/
def execute_script_safely (behavior : ScriptBehavior) : SafeExecResult :=
  match behavior with
  | .completes out err => ⟨true, out, err, none⟩
  | .raises msg => ⟨false, [], msg, some msg⟩

/-! ## Model gateway retry loop (analysis_engine.py, AzureOpenAIClient.make_api_call)

Each HTTP attempt's outcome is an oracle indexed by the attempt number:
success (status 200 with content), rate limit (status 429), another API
error status, or a raised transport exception. The OAuth token fetch,
URL/header/payload construction precede the loop and are outside the
claim's enumerated outcomes. -/

/-- Outcome of one `requests.post` attempt. -/
inductive AttemptOutcome
  | ok (content : List Char)
  | rateLimited
  | httpError (code : ℕ) (text : List Char)
  | exn (msg : List Char)
deriving DecidableEq

/-- The error string returned on a non-200, non-429 response. -/
def apiErrorText (code : ℕ) (text : List Char) : List Char :=
  "API Error: ".toList ++ (Nat.repr code).toList ++ " - ".toList ++ text

/-- The terminal string returned when the retry loop exhausts its attempts. -/
def failedAfterText : List Char := "Failed after 3 attempts".toList

/-- The terminal string returned when the last attempt raises. -/
def requestFailedText (msg : List Char) : List Char :=
  "Request failed after 3 attempts: ".toList ++ msg

/-- The `for attempt in range(max_retries)` loop of `make_api_call`, over the
remaining attempt numbers. Returns (response content, backoff waits slept in
seconds, number of attempts made). `time.sleep` is recorded, not performed. -/
def makeApiCallGo (att : ℕ → AttemptOutcome) : List ℕ → List Char × List ℕ × ℕ
  | [] => (failedAfterText, [], 0)
  | attempt :: rest =>
    match att attempt with
    | .ok content => (content, [], 1)
    | .httpError code text => (apiErrorText code text, [], 1)
    | .rateLimited =>
      let r := makeApiCallGo att rest
      (r.1, (2 ^ attempt + 3) :: r.2.1, r.2.2 + 1)
    | .exn msg =>
      if attempt = 3 - 1 then (requestFailedText msg, [], 1)
      else
        let r := makeApiCallGo att rest
        (r.1, (2 ^ attempt + 2) :: r.2.1, r.2.2 + 1)

/-- `make_api_call(messages, max_tokens, temperature)` with `max_retries = 3`:
`range(3) = [0, 1, 2]`. -/
def make_api_call (att : ℕ → AttemptOutcome) : List Char × List ℕ × ℕ :=
  makeApiCallGo att [0, 1, 2]

/-! ## RAG path and the top-level processor (analysis_engine_exact.py)

`create_embeddings` catches every fault internally and returns `[]`, so the
chunk/query embeddings are plain oracle values; the chat call inside
`generate_rag_response` is an `Except` oracle whose `error` is caught by
that function's own `try/except`. -/

/-- Oracles consumed by the RAG (reasoning) path. -/
structure RagEnv where
  chunkEmbeds : List (List ℚ)
  queryEmbeds : List (List ℚ)
  cos : List ℚ → List ℚ → ℚ
  chatResponse : Except (List Char) (List Char)

/-- `generate_rag_response(prompt, relevant_chunks)`: the context build and
prompt formatting are pure; the chat call's fault is caught and returned as
an error string. -/
def generate_rag_response (chat : Except (List Char) (List Char)) : List Char :=
  match chat with
  | .ok content => content
  | .error e => "Error generating RAG response: ".toList ++ e

/-- `rag_analysis(prompt, file_content)`: chunk (size 300), embed, retrieve
top 25 at threshold 0.05, then answer from the retrieved context. -/
def rag_analysis (env : RagEnv) (file_content : List Char) : List Char :=
  let chunks := prepare_document_chunks file_content 300
  if chunks = [] then "Error: Could not process document for RAG analysis".toList
  else
    let chunk_embeddings := env.chunkEmbeds
    let query_embeddings := env.queryEmbeds
    if query_embeddings = [] then "Error: Could not create query embedding".toList
    else
      let query_embedding := query_embeddings.headD []
      let relevant_chunks :=
        retrieve_relevant_chunks env.cos query_embedding chunks chunk_embeddings 25 (1 / 20)
      let _context := relevant_chunks
      generate_rag_response env.chatResponse

/-- Oracles consumed by the extraction path: the temp-file write/read-back
(inside the outer `try`) and the loop iterations. -/
structure ExtractionEnv where
  tempWrite : Except (List Char) Unit
  loopBhv : ℕ → IterBehavior

/-- `manual_query_processor(prompt, method, file_content)`. `Except.error`
models an exception escaping to the caller — which happens only for an
unknown method, where the source itself raises ValueError (message quotes
elided). -/
def manual_query_processor (xenv : ExtractionEnv) (renv : RagEnv)
    (prompt : List Char) (method : List Char) (file_content : List Char) :
    Except (List Char) (List Char) :=
  if method = "extraction".toList then
    match xenv.tempWrite with
    | .error e => .ok ("Error in extraction analysis: ".toList ++ e)
    | .ok _ => .ok (autonomous_analysis_loop xenv.loopBhv prompt 3).1
  else if method = "reasoning".toList then
    .ok (rag_analysis renv file_content)
  else
    .error "Method must be extraction or reasoning".toList

/-! ## Embeddings cache (embeddings_cache.py)

The cache directory is modeled as the pair of partial maps that
`embeddings_{hash}.pkl` and `metadata_{hash}.json` realize on disk, with
pickle/json round-tripping taken as faithful storage; `hashlib.md5` is an
oracle hash function (the claims are uniform in it). -/

/-- The pickled cache payload. -/
structure CacheData where
  content_hash : List Char
  chunks : List (List Char)
  embeddings : List (List ℚ)
  chunk_count : ℕ
deriving DecidableEq

/-- The JSON metadata written alongside (creation date and version omitted;
no claim depends on them). -/
structure CacheMetadata where
  content_hash : List Char
  chunk_size : ℕ
  chunk_count : ℕ
  content_length : ℕ
deriving DecidableEq

/-- Cache directory state: hash ↦ stored payload / metadata. -/
structure CacheState where
  pkl : List Char → Option CacheData
  meta : List Char → Option CacheMetadata

/-- `EmbeddingsCache.cache_embeddings(content, chunks, embeddings, chunk_size)`
on the success path (a failed write is cleaned up and leaves no entry). -/
def cache_embeddings (hash : List Char → List Char) (st : CacheState) (content : List Char)
    (chunks : List (List Char)) (embeddings : List (List ℚ)) (chunk_size : ℕ) : CacheState :=
  let h := hash content
  ⟨fun k => if k = h then some ⟨h, chunks, embeddings, chunks.length⟩ else st.pkl k,
   fun k => if k = h then some ⟨h, chunk_size, chunks.length, content.length⟩ else st.meta k⟩

/-- `EmbeddingsCache.get_cached_embeddings(content, chunk_size)`: both files
must exist, the metadata's chunk_size must match, and then the pickled
payload is returned; no model-gateway call is involved. -/
def get_cached_embeddings (hash : List Char → List Char) (st : CacheState)
    (content : List Char) (chunk_size : ℕ) : Option CacheData :=
  let h := hash content
  match st.pkl h, st.meta h with
  | some data, some m => if m.chunk_size ≠ chunk_size then none else some data
  | _, _ => none

/-- Modelled from the spec wording of claim C3, for comparison with the
source-derived `detailedOutput`: the number of hyphen-prefixed lines of the
output. -/
def hyphenPrefixedLines (out : List Char) : ℕ :=
  ((out.splitOnP (fun c => c = '\n')).filter (fun l => pyStartswith l ['-'])).length

/-- Modelled from the spec wording of claim C3: stdout "looks like a detailed
enumeration" iff it contains the words "list" and "detailed"
case-insensitively, or has more than 5 newlines, or more than 3
hyphen-prefixed lines. Differs from the source heuristic `detailedOutput`,
which counts every hyphen character. -/
def claimDetailedOutput (out : List Char) : Bool :=
  (pySubstr (pyLower out) "list".toList && pySubstr (pyLower out) "detailed".toList)
  || decide (5 < pyCount out '\n')
  || decide (3 < hyphenPrefixedLines out)

/-! ## Theorems -/

/-- A decision starting with "CONTINUE" does not start with "DONE". -/
theorem continue_not_done {d : List Char} (h : pyStartswith d contTag = true) :
    pyStartswith d doneTag = false := by
  match d with
  | [] => simp [pyStartswith, contTag] at h
  | c :: s =>
    simp only [contTag, pyStartswith, Bool.and_eq_true, beq_iff_eq] at h
    obtain ⟨rfl, -⟩ := h
    have hdc : ('D' == 'C') = false := by decide
    simp [doneTag, pyStartswith, hdc]

/-- Unfolding one CONTINUE iteration of the loop. -/
theorem loopGo_continue (bhv : ℕ → IterBehavior) (fuel i : ℕ) (prompt : List Char)
    (h : continuesOk (bhv i)) :
    loopGo bhv (fuel + 1) i prompt =
      ((loopGo bhv fuel (i + 1) (prompt ++ continueSuffix)).1,
       (loopGo bhv fuel (i + 1) (prompt ++ continueSuffix)).2 + 1) := by
  obtain ⟨⟨s, hs⟩, ⟨r, hr⟩, d, hd, hc⟩ := h
  simp [loopGo, hs, hr, hd, hc, continue_not_done hc]

/-- Unfolding a DONE iteration with a successful, nonempty-output execution. -/
theorem loopGo_done (bhv : ℕ → IterBehavior) (fuel i : ℕ) (prompt : List Char)
    {s : List Char} {r : ExecResult} {d : List Char}
    (hs : (bhv i).gen = .ok s) (hr : (bhv i).exec = .ok r) (hd : (bhv i).dec = .ok d)
    (hdone : pyStartswith d doneTag = true)
    (hsucc : r.success = true) (hout : r.output ≠ []) :
    loopGo bhv (fuel + 1) i prompt =
      (if detailedOutput r.output then r.output else pyStrip (d.drop 5), 1) := by
  have ho : r.output.isEmpty = false := by
    cases hro : r.output with
    | nil => exact absurd hro hout
    | cons a l => rfl
  cases hdet : detailedOutput r.output <;>
    simp [loopGo, hs, hr, hd, hdone, hsucc, ho, hdet]

/-- If every iteration in the window keeps deciding CONTINUE, the loop uses
all its fuel, performs one generation attempt per iteration and ends with
the exhaustion message. -/
theorem loopGo_all_continue (bhv : ℕ → IterBehavior) :
    ∀ fuel i prompt, (∀ j, i ≤ j → j < i + fuel → continuesOk (bhv j)) →
      loopGo bhv fuel i prompt = (maxIterationsMsg, fuel) := by
  intro fuel
  induction fuel with
  | zero => intro i prompt _; rfl
  | succ n ih =>
    intro i prompt h
    rw [loopGo_continue bhv n i prompt (h i le_rfl (by omega))]
    rw [ih (i + 1) (prompt ++ continueSuffix) (fun j h1 h2 => h j (by omega) (by omega))]

/-- C1: with `max_iterations = 3`, if every model decision starts with
"CONTINUE" (and each iteration's generation, execution and decision calls
return), the loop performs exactly 3 generation attempts — one per
iteration, never a fourth — and returns the text "Analysis completed after
maximum iterations". -/
theorem C1_three_continues_exhausts_iterations (bhv : ℕ → IterBehavior) (prompt : List Char)
    (h : ∀ i, 1 ≤ i → i ≤ 3 → continuesOk (bhv i)) :
    autonomous_analysis_loop bhv prompt 3 =
      ("Analysis completed after maximum iterations".toList, 3) :=
  loopGo_all_continue bhv 3 1 prompt (fun j h1 h2 => h j h1 (by omega))

/-- Witness for C1 at a concrete all-CONTINUE run. -/
theorem C1_witness :
    autonomous_analysis_loop
      (fun _ => ⟨.ok "print".toList, .ok ⟨true, [], []⟩, .ok "CONTINUE: refine".toList⟩)
      "count complaints".toList 3 =
      ("Analysis completed after maximum iterations".toList, 3) :=
  C1_three_continues_exhausts_iterations _ _
    (fun _ _ _ => ⟨⟨_, rfl⟩, ⟨_, rfl⟩, _, rfl, by decide⟩)

/-- Reaching iteration `k` through CONTINUE decisions and meeting a DONE
decision there with a successful, nonempty-output execution yields the raw
stdout or the stripped summary according to `detailedOutput`. -/
theorem loopGo_done_reach (bhv : ℕ → IterBehavior) (k : ℕ)
    {s : List Char} {r : ExecResult} {d : List Char}
    (hs : (bhv k).gen = .ok s) (hr : (bhv k).exec = .ok r) (hd : (bhv k).dec = .ok d)
    (hdone : pyStartswith d doneTag = true)
    (hsucc : r.success = true) (hout : r.output ≠ []) :
    ∀ fuel i prompt, i ≤ k → k < i + fuel →
      (∀ j, i ≤ j → j < k → continuesOk (bhv j)) →
      (loopGo bhv fuel i prompt).1 =
        if detailedOutput r.output then r.output else pyStrip (d.drop 5) := by
  intro fuel
  induction fuel with
  | zero => intro i prompt h1 h2 _; omega
  | succ n ih =>
    intro i prompt h1 h2 hprev
    rcases eq_or_lt_of_le h1 with rfl | hlt
    · rw [loopGo_done bhv n i prompt hs hr hd hdone hsucc hout]
    · rw [loopGo_continue bhv n i prompt (hprev i le_rfl hlt)]
      exact ih (i + 1) (prompt ++ continueSuffix) hlt (by omega)
        (fun j hj1 hj2 => hprev j (by omega) hj2)

/-- C3 (amended): when the decision of a reached iteration starts with
"DONE" and that iteration's execution succeeded with nonempty stdout, the
loop returns the raw stdout exactly when the stdout contains both "list"
and "detailed" case-insensitively, or has more than 5 newlines, or has more
than 3 hyphen characters (not hyphen-prefixed lines); otherwise it returns
the stripped text following the "DONE:" prefix. -/
theorem C3_done_branch_output_choice (bhv : ℕ → IterBehavior) (prompt : List Char)
    (max_iterations k : ℕ) (s : List Char) (r : ExecResult) (d : List Char)
    (hk1 : 1 ≤ k) (hk2 : k ≤ max_iterations)
    (hprev : ∀ j, 1 ≤ j → j < k → continuesOk (bhv j))
    (hs : (bhv k).gen = .ok s) (hr : (bhv k).exec = .ok r) (hd : (bhv k).dec = .ok d)
    (hdone : pyStartswith d doneTag = true)
    (hsucc : r.success = true) (hout : r.output ≠ []) :
    (autonomous_analysis_loop bhv prompt max_iterations).1 =
      if detailedOutput r.output then r.output else pyStrip (d.drop 5) :=
  loopGo_done_reach bhv k hs hr hd hdone hsucc hout max_iterations 1 prompt hk1
    (by omega) hprev

/-- Counterexample to C3 as stated: the stdout "a-b-c-d-e" has no
hyphen-prefixed line, at most 5 newlines and lacks "list"/"detailed", so
the claim predicts the loop returns the summary "summary"; the code counts
the 4 raw hyphen characters of "a-b-c-d-e" and returns the stdout instead. -/
theorem C3_counterexample :
    (autonomous_analysis_loop
      (fun _ => ⟨.ok "print".toList,
                 .ok ⟨true, "a-b-c-d-e".toList, []⟩,
                 .ok "DONE: summary".toList⟩) "q".toList 3).1 = "a-b-c-d-e".toList
    ∧ claimDetailedOutput "a-b-c-d-e".toList = false
    ∧ pyStrip ("DONE: summary".toList.drop 5) = "summary".toList
    ∧ "a-b-c-d-e".toList ≠ "summary".toList := by decide

/-- Witness for C3 at a concrete DONE run whose stdout trips the hyphen count. -/
theorem C3_witness :
    (autonomous_analysis_loop
      (fun _ => ⟨.ok "print".toList,
                 .ok ⟨true, "Item 1 - x - y - z - w".toList, []⟩,
                 .ok "DONE: four items".toList⟩) "list items".toList 3).1 =
      if detailedOutput "Item 1 - x - y - z - w".toList
      then "Item 1 - x - y - z - w".toList
      else pyStrip ("DONE: four items".toList.drop 5) :=
  C3_done_branch_output_choice _ _ 3 1 _ _ _ (by omega) (by omega)
    (fun j hj1 hj2 => absurd (Nat.lt_of_lt_of_le hj2 hj1) (by omega))
    rfl rfl rfl (by decide) rfl (by decide)

/-- The threshold-collection loop keeps the first `top_k` indices (in the
given order) whose similarity reaches the threshold. -/
theorem thresholdPass_eq_filter_take (sims : List ℚ) (t : ℚ) (top_k : ℕ) (l : List ℕ) :
    thresholdPass l sims t top_k =
      (l.filter (fun i => decide (t ≤ sims.getD i 0))).take top_k := by
  have key : ∀ (l : List ℕ) (acc : List ℕ), acc.length ≤ top_k →
      l.foldl
        (fun acc idx =>
          if t ≤ sims.getD idx 0 ∧ acc.length < top_k then acc ++ [idx] else acc) acc
        = acc ++ (l.filter (fun i => decide (t ≤ sims.getD i 0))).take (top_k - acc.length) := by
    intro l
    induction l with
    | nil => intro acc _; simp
    | cons a l ih =>
      intro acc hacc
      by_cases hp : t ≤ sims.getD a 0
      · by_cases hl : acc.length < top_k
        · rw [List.foldl_cons, if_pos ⟨hp, hl⟩, ih (acc ++ [a]) (by simp; omega),
            List.filter_cons, if_pos (by simpa using hp)]
          have harith : top_k - acc.length = (top_k - (acc ++ [a]).length) + 1 := by
            simp; omega
          rw [harith, List.take_succ_cons]
          simp
        · rw [List.foldl_cons, if_neg (fun hh => hl hh.2), ih acc hacc]
          have h0 : top_k - acc.length = 0 := by omega
          simp [h0]
      · rw [List.foldl_cons, if_neg (fun hh => hp hh.1), ih acc hacc,
          List.filter_cons, if_neg (by simpa using hp)]
  unfold thresholdPass
  rw [key l [] (by simp)]
  simp

/-- The descending argsort is a permutation of the index range. -/
theorem argsortDesc_perm (sims : List ℚ) :
    (argsortDesc sims).Perm (List.range sims.length) :=
  List.perm_insertionSort _ _

/-- The descending argsort is sorted by weakly decreasing similarity. -/
theorem argsortDesc_sorted (sims : List ℚ) :
    List.Sorted (fun i j => sims.getD j 0 ≤ sims.getD i 0) (argsortDesc sims) := by
  haveI : IsTotal ℕ (fun i j => sims.getD j 0 ≤ sims.getD i 0) := ⟨fun i j => le_total _ _⟩
  haveI : IsTrans ℕ (fun i j => sims.getD j 0 ≤ sims.getD i 0) :=
    ⟨fun _ _ _ h1 h2 => le_trans h2 h1⟩
  exact List.sorted_insertionSort _ _

/-- The descending argsort enumerates each index below `sims.length`. -/
theorem mem_argsortDesc {sims : List ℚ} {i : ℕ} : i ∈ argsortDesc sims ↔ i < sims.length := by
  rw [(argsortDesc_perm sims).mem_iff, List.mem_range]

/-- The descending argsort has one entry per similarity. -/
theorem argsortDesc_length (sims : List ℚ) : (argsortDesc sims).length = sims.length := by
  simpa using (argsortDesc_perm sims).length_eq

/-- The selected indices are a sublist of the descending argsort. -/
theorem selectedIndices_sublist (sims : List ℚ) (top_k : ℕ) (t : ℚ) :
    (selectedIndices sims top_k t).Sublist (argsortDesc sims) := by
  unfold selectedIndices
  by_cases h : thresholdPass (argsortDesc sims) sims t top_k = []
  · simpa [h] using List.take_sublist 5 (argsortDesc sims)
  · simp only [h, if_neg]
    rw [thresholdPass_eq_filter_take]
    exact (List.take_sublist _ _).trans (List.filter_sublist _)

/-- The selected indices are in weakly decreasing similarity order. -/
theorem selectedIndices_sorted (sims : List ℚ) (top_k : ℕ) (t : ℚ) :
    List.Sorted (fun i j => sims.getD j 0 ≤ sims.getD i 0) (selectedIndices sims top_k t) :=
  (argsortDesc_sorted sims).sublist (selectedIndices_sublist sims top_k t)

/-- Every selected index is in range. -/
theorem mem_selectedIndices_lt {sims : List ℚ} {top_k : ℕ} {t : ℚ} {i : ℕ}
    (h : i ∈ selectedIndices sims top_k t) : i < sims.length :=
  mem_argsortDesc.mp ((selectedIndices_sublist sims top_k t).subset h)

/-- When some similarity reaches the threshold and `top_k ≥ 1`, the
threshold pass is nonempty and the fallback is not taken. -/
theorem selectedIndices_of_threshold_met (sims : List ℚ) (top_k : ℕ) (t : ℚ)
    (hk : 1 ≤ top_k) (hex : ∃ i, i < sims.length ∧ t ≤ sims.getD i 0) :
    thresholdPass (argsortDesc sims) sims t top_k ≠ [] ∧
    selectedIndices sims top_k t = thresholdPass (argsortDesc sims) sims t top_k := by
  obtain ⟨i, hi, hti⟩ := hex
  have hmem : i ∈ (argsortDesc sims).filter (fun j => decide (t ≤ sims.getD j 0)) :=
    List.mem_filter.mpr ⟨mem_argsortDesc.mpr hi, by simpa using hti⟩
  have hne : thresholdPass (argsortDesc sims) sims t top_k ≠ [] := by
    rw [thresholdPass_eq_filter_take]
    intro hcon
    rcases List.take_eq_nil_iff.mp hcon with h0 | hfe
    · omega
    · rw [hfe] at hmem
      exact absurd hmem (List.not_mem_nil i)
  exact ⟨hne, by unfold selectedIndices; simp [hne]⟩

/-- Each index kept by the threshold pass has similarity at or above the
threshold. -/
theorem thresholdPass_mem {sims : List ℚ} {t : ℚ} {top_k : ℕ} {i : ℕ}
    (h : i ∈ thresholdPass (argsortDesc sims) sims t top_k) : t ≤ sims.getD i 0 := by
  rw [thresholdPass_eq_filter_take] at h
  have h2 := List.take_subset top_k _ h
  simpa using (List.mem_filter.mp h2).2

/-- The threshold pass keeps at most `top_k` indices. -/
theorem thresholdPass_length_le (sims : List ℚ) (t : ℚ) (top_k : ℕ) :
    (thresholdPass (argsortDesc sims) sims t top_k).length ≤ top_k := by
  rw [thresholdPass_eq_filter_take]
  simpa using List.length_take_le top_k _

/-- When no similarity reaches the threshold, the top-5 fallback is taken. -/
theorem selectedIndices_fallback (sims : List ℚ) (top_k : ℕ) (t : ℚ)
    (hall : ∀ i, i < sims.length → sims.getD i 0 < t) :
    selectedIndices sims top_k t = (argsortDesc sims).take 5 := by
  have hfe : (argsortDesc sims).filter (fun j => decide (t ≤ sims.getD j 0)) = [] := by
    rw [List.filter_eq_nil_iff]
    intro a ha
    simpa using not_le.mpr (hall a (mem_argsortDesc.mp ha))
  simp only [selectedIndices]
  rw [thresholdPass_eq_filter_take, hfe]
  simp

/-- A prefix of the descending argsort dominates every index outside it. -/
theorem argsortDesc_take_top (sims : List ℚ) (n : ℕ) {i j : ℕ}
    (hi : i ∈ (argsortDesc sims).take n) (hj : j < sims.length)
    (hjn : j ∉ (argsortDesc sims).take n) : sims.getD j 0 ≤ sims.getD i 0 := by
  have hsplit : argsortDesc sims = (argsortDesc sims).take n ++ (argsortDesc sims).drop n :=
    (List.take_append_drop n _).symm
  have hp : List.Pairwise (fun i j => sims.getD j 0 ≤ sims.getD i 0)
      ((argsortDesc sims).take n ++ (argsortDesc sims).drop n) := by
    rw [← hsplit]; exact argsortDesc_sorted sims
  have hjd : j ∈ (argsortDesc sims).drop n := by
    have hja : j ∈ argsortDesc sims := mem_argsortDesc.mpr hj
    rw [hsplit] at hja
    rcases List.mem_append.mp hja with h | h
    · exact absurd h hjn
    · exact h
  exact (List.pairwise_append.mp hp).2.2 i hi j hjd

/-- A defaulted lookup at an in-range index is a member of the list. -/
theorem getD_mem_of_lt {α : Type} {l : List α} {i : ℕ} (d : α) (h : i < l.length) :
    l.getD i d ∈ l := by
  rw [List.getD_eq_getElem?_getD, List.getElem?_eq_getElem h, Option.getD_some]
  exact List.getElem_mem h

/-- C2 (amended): with embeddings present, matching lengths and `top_k ≥ 1`,
`retrieve_relevant_chunks` returns the selected chunks in weakly decreasing
cosine-similarity order; when some chunk reaches the threshold the result
has at most `top_k` elements, all at or above the threshold; when none does,
exactly the top `min 5 n` chunks by raw similarity are returned; and every
returned element is textually an element of the input chunk list. -/
theorem C2_similarity_ranking (cos : List ℚ → List ℚ → ℚ) (query_embedding : List ℚ)
    (chunks : List (List Char)) (chunk_embeddings : List (List ℚ)) (top_k : ℕ) (t : ℚ)
    (sims : List ℚ) (hsims : sims = chunk_embeddings.map (cos query_embedding))
    (hq : query_embedding ≠ []) (hce : chunk_embeddings ≠ [])
    (hlen : chunks.length = chunk_embeddings.length) (hk : 1 ≤ top_k) :
    retrieve_relevant_chunks cos query_embedding chunks chunk_embeddings top_k t =
        (selectedIndices sims top_k t).map (fun i => chunks.getD i [])
    ∧ ((selectedIndices sims top_k t).map (fun i => sims.getD i 0)).Pairwise (fun a b => b ≤ a)
    ∧ ((∃ i, i < sims.length ∧ t ≤ sims.getD i 0) →
        (selectedIndices sims top_k t).length ≤ top_k ∧
        ∀ i ∈ selectedIndices sims top_k t, t ≤ sims.getD i 0)
    ∧ ((∀ i, i < sims.length → sims.getD i 0 < t) →
        selectedIndices sims top_k t = (argsortDesc sims).take 5 ∧
        (selectedIndices sims top_k t).length = min 5 sims.length ∧
        ∀ i ∈ selectedIndices sims top_k t, ∀ j, j < sims.length →
          j ∉ selectedIndices sims top_k t → sims.getD j 0 ≤ sims.getD i 0)
    ∧ ∀ s ∈ retrieve_relevant_chunks cos query_embedding chunks chunk_embeddings top_k t,
        s ∈ chunks := by
  subst hsims
  have hguard : ¬(query_embedding = [] ∨ chunk_embeddings = []) := by simp [hq, hce]
  have h1 : retrieve_relevant_chunks cos query_embedding chunks chunk_embeddings top_k t =
      (selectedIndices (chunk_embeddings.map (cos query_embedding)) top_k t).map
        (fun i => chunks.getD i []) := by
    unfold retrieve_relevant_chunks
    rw [if_neg hguard]
  refine ⟨h1, ?_, ?_, ?_, ?_⟩
  · exact List.pairwise_map.mpr (selectedIndices_sorted _ top_k t)
  · intro hex
    obtain ⟨hne, heq⟩ := selectedIndices_of_threshold_met _ top_k t hk hex
    constructor
    · rw [heq]; exact thresholdPass_length_le _ t top_k
    · intro i hi
      rw [heq] at hi
      exact thresholdPass_mem hi
  · intro hall
    have hfb := selectedIndices_fallback _ top_k t hall
    refine ⟨hfb, ?_, ?_⟩
    · rw [hfb, List.length_take, argsortDesc_length]
    · intro i hi j hj hjn
      rw [hfb] at hi hjn
      exact argsortDesc_take_top _ 5 hi hj hjn
  · intro s hs
    rw [h1] at hs
    obtain ⟨i, hi, rfl⟩ := List.mem_map.mp hs
    have hilen : i < chunks.length := by
      have := mem_selectedIndices_lt hi
      rw [List.length_map] at this
      omega
    exact getD_mem_of_lt [] hilen

/-- Counterexample to C2 as stated: with `top_k = 0` the single chunk
reaches the threshold (its similarity 1 is at or above 0), so the claim requires a
result of length at most `top_k = 0`; but with `top_k = 0` the threshold
pass can never collect anything, and the code takes the top-5 fallback,
returning the chunk. -/
theorem C2_counterexample :
    retrieve_relevant_chunks cosWitness [1] [['a']] [[1]] 0 0 = [['a']]
    ∧ (0 : ℚ) ≤ cosWitness [1] [1]
    ∧ ¬((retrieve_relevant_chunks cosWitness [1] [['a']] [[1]] 0 0).length ≤ 0) := by
  decide

/-- Witness for C2 on two unit-vector embeddings with `top_k = 1`. -/
theorem C2_witness :
    (selectedIndices ([[(1 : ℚ)], [1]].map (cosWitness [1])) 1 0).length ≤ 1
    ∧ ∀ i ∈ selectedIndices ([[(1 : ℚ)], [1]].map (cosWitness [1])) 1 0,
        (0 : ℚ) ≤ ([[(1 : ℚ)], [1]].map (cosWitness [1])).getD i 0 :=
  (C2_similarity_ranking cosWitness [1] [['a'], ['b']] [[(1 : ℚ)], [1]] 1 0 _ rfl
    (by decide) (by decide) (by decide) (by decide)).2.2.1 ⟨0, by decide, by decide⟩

/-- C10: with embeddings present and matching lengths, the ranking never
returns an empty list (for any `top_k`, including 0); whenever the threshold
pass collects nothing the result is the top `min 5 n` chunks by raw
similarity — and with `top_k = 0` the threshold pass always collects
nothing, so the result length `min 5 n` can exceed `top_k`. -/
theorem C10_top5_fallback (cos : List ℚ → List ℚ → ℚ) (query_embedding : List ℚ)
    (chunks : List (List Char)) (chunk_embeddings : List (List ℚ)) (top_k : ℕ) (t : ℚ)
    (sims : List ℚ) (hsims : sims = chunk_embeddings.map (cos query_embedding))
    (hc : chunks ≠ []) (hq : query_embedding ≠ [])
    (hlen : chunks.length = chunk_embeddings.length) :
    retrieve_relevant_chunks cos query_embedding chunks chunk_embeddings top_k t ≠ []
    ∧ (thresholdPass (argsortDesc sims) sims t top_k = [] →
        retrieve_relevant_chunks cos query_embedding chunks chunk_embeddings top_k t =
          ((argsortDesc sims).take 5).map (fun i => chunks.getD i []) ∧
        (retrieve_relevant_chunks cos query_embedding chunks chunk_embeddings top_k t).length =
          min 5 chunk_embeddings.length)
    ∧ (top_k = 0 → thresholdPass (argsortDesc sims) sims t top_k = []) := by
  subst hsims
  have hce : chunk_embeddings ≠ [] := by
    intro hcon
    apply hc
    apply List.length_eq_zero.mp
    rw [hlen, hcon]
    rfl
  have hguard : ¬(query_embedding = [] ∨ chunk_embeddings = []) := by simp [hq, hce]
  have h1 : retrieve_relevant_chunks cos query_embedding chunks chunk_embeddings top_k t =
      (selectedIndices (chunk_embeddings.map (cos query_embedding)) top_k t).map
        (fun i => chunks.getD i []) := by
    unfold retrieve_relevant_chunks
    rw [if_neg hguard]
  have hargne : argsortDesc (chunk_embeddings.map (cos query_embedding)) ≠ [] := by
    intro hcon
    have := argsortDesc_length (chunk_embeddings.map (cos query_embedding))
    rw [hcon] at this
    simp at this
    exact hce (List.length_eq_zero.mp this.symm)
  have htake5 : (argsortDesc (chunk_embeddings.map (cos query_embedding))).take 5 ≠ [] := by
    intro hcon
    rcases List.take_eq_nil_iff.mp hcon with h | h
    · exact absurd h (by decide)
    · exact hargne h
  refine ⟨?_, ?_, ?_⟩
  · rw [h1]
    simp only [ne_eq, List.map_eq_nil_iff]
    simp only [selectedIndices]
    by_cases hrel :
        thresholdPass (argsortDesc (chunk_embeddings.map (cos query_embedding)))
          (chunk_embeddings.map (cos query_embedding)) t top_k = []
    · simpa [hrel] using htake5
    · simpa [hrel] using hrel
  · intro hrel
    have hsel : selectedIndices (chunk_embeddings.map (cos query_embedding)) top_k t =
        (argsortDesc (chunk_embeddings.map (cos query_embedding))).take 5 := by
      simp [selectedIndices, hrel]
    constructor
    · rw [h1, hsel]
    · rw [h1, hsel, List.length_map, List.length_take, argsortDesc_length, List.length_map]
  · intro h0
    subst h0
    rw [thresholdPass_eq_filter_take]
    simp

/-- Witness for C10 with `top_k = 0`: the fallback returns both chunks, a
result longer than `top_k`. -/
theorem C10_witness :
    retrieve_relevant_chunks cosWitness [1] [['a'], ['b']] [[(1 : ℚ)], [1]] 0 0 ≠ []
    ∧ (retrieve_relevant_chunks cosWitness [1] [['a'], ['b']] [[(1 : ℚ)], [1]] 0 0).length =
        min 5 2
    ∧ 0 < (retrieve_relevant_chunks cosWitness [1] [['a'], ['b']] [[(1 : ℚ)], [1]] 0 0).length := by
  have h := C10_top5_fallback cosWitness [1] [['a'], ['b']] [[(1 : ℚ)], [1]] 0 0 _ rfl
    (by decide) (by decide) (by decide)
  exact ⟨h.1, (h.2.1 (h.2.2 rfl)).2, by decide⟩

/-- Pieces produced by `splitOnP` contain no separator character. -/
theorem splitOnP_pieces_not (p : Char → Bool) :
    ∀ (l : List Char), ∀ w ∈ l.splitOnP p, ∀ c ∈ w, p c = false := by
  intro l
  induction l with
  | nil =>
    intro w hw c hc
    rw [List.splitOnP_nil] at hw
    simp only [List.mem_singleton] at hw
    subst hw
    simp at hc
  | cons x xs ih =>
    intro w hw c hc
    rw [List.splitOnP_cons] at hw
    by_cases hx : p x
    · rw [if_pos hx] at hw
      rcases List.mem_cons.mp hw with rfl | hw2
      · simp at hc
      · exact ih w hw2 c hc
    · rw [if_neg hx] at hw
      rcases hsplit : xs.splitOnP p with _ | ⟨h0, tl⟩
      · exact absurd hsplit (List.splitOnP_ne_nil _ _)
      · rw [hsplit] at hw
        simp only [List.modifyHead, List.mem_cons] at hw
        rcases hw with rfl | hw2
        · rcases List.mem_cons.mp hc with rfl | hch
          · exact Bool.not_eq_true _ ▸ (by simpa using hx)
          · exact ih h0 (by rw [hsplit]; exact List.mem_cons_self _ _) c hch
        · exact ih w (by rw [hsplit]; exact List.mem_cons_of_mem _ hw2) c hc

/-- No word produced by Python `split()` is empty. -/
theorem pySplitWs_ne_nil (s : List Char) : ∀ w ∈ pySplitWs s, w ≠ [] := by
  intro w hw
  simpa using (List.mem_filter.mp hw).2

/-- No word produced by Python `split()` contains whitespace. -/
theorem pySplitWs_no_ws (s : List Char) :
    ∀ w ∈ pySplitWs s, ∀ c ∈ w, c.isWhitespace = false := by
  intro w hw c hc
  exact splitOnP_pieces_not _ s w (List.mem_filter.mp hw).1 c hc

/-- Splitting a single-space join of nonempty whitespace-free words recovers
exactly those words. -/
theorem pySplitWs_pyJoinSpace :
    ∀ ws : List (List Char), (∀ w ∈ ws, w ≠ []) →
      (∀ w ∈ ws, ∀ c ∈ w, c.isWhitespace = false) →
      pySplitWs (pyJoinSpace ws) = ws := by
  intro ws
  induction ws with
  | nil => intro _ _; simp [pyJoinSpace, pySplitWs, List.splitOnP_nil]
  | cons w vs ih =>
    intro h1 h2
    have hwkeep : ∀ c ∈ w, ¬((fun c => c.isWhitespace) c = true) := by
      intro c hc
      simp [h2 w (by simp) c hc]
    cases vs with
    | nil =>
      have hs : pyJoinSpace [w] = w := rfl
      rw [hs]
      unfold pySplitWs
      rw [List.splitOnP_eq_single _ _ hwkeep]
      simp [h1 w (by simp)]
    | cons v vs2 =>
      have hs : pyJoinSpace (w :: v :: vs2) = w ++ ' ' :: pyJoinSpace (v :: vs2) := rfl
      rw [hs]
      unfold pySplitWs
      rw [List.splitOnP_first _ _ hwkeep ' ' (by simp) (pyJoinSpace (v :: vs2))]
      have hrest : List.filter (fun u => decide (u ≠ []))
          ((pyJoinSpace (v :: vs2)).splitOnP (fun c => c.isWhitespace)) = v :: vs2 :=
        ih (fun u hu => h1 u (by simp [hu])) (fun u hu c hc => h2 u (by simp [hu]) c hc)
      rw [List.filter_cons, if_pos (by simp [h1 w (by simp)])]
      exact congrArg (w :: ·) hrest

/-- `wordGroups` concatenates back to the original word list. -/
theorem wordGroups_flatten (s : ℕ) (hs : s ≠ 0) (ws : List (List Char)) :
    (wordGroups s ws).flatten = ws := by
  suffices h : ∀ n (ws : List (List Char)), ws.length ≤ n → (wordGroups s ws).flatten = ws from
    h ws.length ws le_rfl
  intro n
  induction n with
  | zero =>
    intro ws hw
    have : ws = [] := List.length_eq_zero.mp (by omega)
    subst this
    rw [wordGroups]
    simp
  | succ n ih =>
    intro ws hw
    rw [wordGroups]
    by_cases h : s = 0 ∨ ws = []
    · rcases h with h | h
      · exact absurd h hs
      · subst h; simp
    · rw [dif_neg h]
      push_neg at h
      have hlen : 0 < ws.length := List.length_pos.mpr h.2
      rw [List.flatten_cons, ih (ws.drop s) (by simp only [List.length_drop]; omega)]
      exact List.take_append_drop s ws

/-- `wordGroups` produces `⌈words/chunk_size⌉` groups. -/
theorem wordGroups_length (s : ℕ) (hs : s ≠ 0) (ws : List (List Char)) :
    (wordGroups s ws).length = (ws.length + s - 1) / s := by
  suffices h : ∀ n (ws : List (List Char)), ws.length ≤ n →
      (wordGroups s ws).length = (ws.length + s - 1) / s from h ws.length ws le_rfl
  intro n
  induction n with
  | zero =>
    intro ws hw
    have : ws = [] := List.length_eq_zero.mp (by omega)
    subst this
    rw [wordGroups]
    simp [Nat.div_eq_of_lt (by omega : s - 1 < s)]
  | succ n ih =>
    intro ws hw
    rw [wordGroups]
    by_cases h : s = 0 ∨ ws = []
    · rcases h with h | h
      · exact absurd h hs
      · subst h; simp [Nat.div_eq_of_lt (by omega : s - 1 < s)]
    · rw [dif_neg h]
      push_neg at h
      have hlen : 0 < ws.length := List.length_pos.mpr h.2
      rw [List.length_cons, ih (ws.drop s) (by simp only [List.length_drop]; omega)]
      simp only [List.length_drop]
      rcases le_or_lt ws.length s with hle | hgt
      · have h1 : ws.length - s = 0 := by omega
        rw [h1]
        have h2 : (0 + s - 1) / s = 0 := Nat.div_eq_of_lt (by omega)
        have h3 : (ws.length + s - 1) / s = 1 := by
          apply Nat.div_eq_of_lt_le
          · simpa using (by omega : s ≤ ws.length + s - 1)
          · omega
        omega
      · have h2 : ws.length - s + s - 1 = ws.length - 1 := by omega
        have h3 : ws.length + s - 1 = (ws.length - 1) + s := by omega
        rw [h2, h3, Nat.add_div_right _ (by omega : 0 < s)]

/-- Every group is nonempty and draws its words from the input. -/
theorem wordGroups_mem (s : ℕ) (hs : s ≠ 0) (ws : List (List Char)) :
    ∀ g ∈ wordGroups s ws, g ≠ [] ∧ ∀ w ∈ g, w ∈ ws := by
  suffices h : ∀ n (ws : List (List Char)), ws.length ≤ n →
      ∀ g ∈ wordGroups s ws, g ≠ [] ∧ ∀ w ∈ g, w ∈ ws from h ws.length ws le_rfl
  intro n
  induction n with
  | zero =>
    intro ws hw g hg
    have : ws = [] := List.length_eq_zero.mp (by omega)
    subst this
    rw [wordGroups] at hg
    simp at hg
  | succ n ih =>
    intro ws hw g hg
    rw [wordGroups] at hg
    by_cases h : s = 0 ∨ ws = []
    · rw [dif_pos h] at hg
      simp at hg
    · rw [dif_neg h] at hg
      push_neg at h
      have hlen : 0 < ws.length := List.length_pos.mpr h.2
      rcases List.mem_cons.mp hg with rfl | hg2
      · constructor
        · intro hcon
          rcases List.take_eq_nil_iff.mp hcon with h0 | h0
          · exact h.1 h0
          · exact h.2 h0
        · intro w hwinm
          exact List.take_subset s ws hwinm
      · have := ih (ws.drop s) (by simp only [List.length_drop]; omega) g hg2
        exact ⟨this.1, fun w hwin => List.drop_subset s ws (this.2 w hwin)⟩

/-- A single-space join of nonempty words is nonempty. -/
theorem pyJoinSpace_ne_nil : ∀ {g : List (List Char)}, g ≠ [] → (∀ w ∈ g, w ≠ []) →
    pyJoinSpace g ≠ []
  | [], hg, _ => absurd rfl hg
  | [w], _, hw => by simpa [pyJoinSpace] using hw w (by simp)
  | w :: v :: vs, _, hw => by
    have : w ≠ [] := hw w (by simp)
    simp [pyJoinSpace]

/-- C4: for chunk sizes `s > 0`, word-mode chunking yields `⌈w/s⌉` chunks
(`w` the number of whitespace-delimited words), none empty; re-splitting the
chunks on whitespace and concatenating recovers exactly the original word
sequence; empty input yields the empty chunk sequence. -/
theorem C4_word_chunking (content : List Char) (s : ℕ) (hs : 0 < s) :
    (prepare_document_chunks content s).length = ((pySplitWs content).length + s - 1) / s
    ∧ (∀ c ∈ prepare_document_chunks content s, c ≠ [])
    ∧ ((prepare_document_chunks content s).map pySplitWs).flatten = pySplitWs content
    ∧ (content = [] → prepare_document_chunks content s = []) := by
  have hs0 : s ≠ 0 := by omega
  refine ⟨?_, ?_, ?_, ?_⟩
  · unfold prepare_document_chunks
    rw [List.length_map, wordGroups_length s hs0]
  · unfold prepare_document_chunks
    intro c hc
    obtain ⟨g, hg, rfl⟩ := List.mem_map.mp hc
    obtain ⟨hgne, hgmem⟩ := wordGroups_mem s hs0 _ g hg
    exact pyJoinSpace_ne_nil hgne (fun w hw => pySplitWs_ne_nil _ w (hgmem w hw))
  · unfold prepare_document_chunks
    rw [List.map_map]
    have hcong : ∀ g ∈ wordGroups s (pySplitWs content), (pySplitWs ∘ pyJoinSpace) g = g := by
      intro g hg
      obtain ⟨_, hgmem⟩ := wordGroups_mem s hs0 _ g hg
      exact pySplitWs_pyJoinSpace g (fun w hw => pySplitWs_ne_nil _ w (hgmem w hw))
        (fun w hw c hc => pySplitWs_no_ws _ w (hgmem w hw) c hc)
    rw [List.map_congr_left hcong, List.map_id']
    exact wordGroups_flatten s hs0 _
  · intro h
    subst h
    have hsplit : pySplitWs [] = [] := by simp [pySplitWs, List.splitOnP_nil]
    unfold prepare_document_chunks
    rw [hsplit, wordGroups]
    simp

/-- Witness for C4 on a three-word document with chunk size 2. -/
theorem C4_witness :
    (prepare_document_chunks "ab cd ef".toList 2).length =
        ((pySplitWs "ab cd ef".toList).length + 2 - 1) / 2
    ∧ ((prepare_document_chunks "ab cd ef".toList 2).map pySplitWs).flatten =
        pySplitWs "ab cd ef".toList := by
  have h := C4_word_chunking "ab cd ef".toList 2 (by omega)
  exact ⟨h.1, h.2.2.1⟩

/-- C5 (code bug): `chunk_document("0123456789abcdef.ghijk", 10, 2)`. In the
second window `text[8:18] = "89abcdef.g"` the last period sits at absolute
position 16 (window-relative 8), and snapping the boundary to just after it
would leave the 9-character chunk `text[8:17] = "89abcdef."`, more than half
the 10-character target — the claim therefore requires the pulled-back
boundary. The code instead compares the window-relative `rfind` result 8
against the absolute cutoff `start + chunk_size // 2 = 13` and keeps the raw
window, producing "89abcdef.g". (When this comparison does fire at a
nonzero `start`, `text[start:break_point + 1]` cuts at a position unrelated
to the period, and the loop can even stop advancing.) -/
theorem C5_boundary_snap_bug :
    chunk_document "0123456789abcdef.ghijk".toList 10 2 =
      ["0123456789".toList, "89abcdef.g".toList, ".ghijk".toList]
    ∧ pyRfind (pySlice "0123456789abcdef.ghijk".toList 8 18) '.' = 8
    ∧ pySlice "0123456789abcdef.ghijk".toList 8 17 = "89abcdef.".toList
    ∧ "89abcdef.g".toList ≠ "89abcdef.".toList := by decide

/-- C6: `execute_script_safely` never raises: a completing script yields a
success result carrying the captured stdout/stderr, and any raised fault
(in particular a NameError from a name outside the restricted builtins,
such as `open` or `__import__`, which are absent from the whitelist) yields
a failure result with the fault captured as an error string. -/
theorem C6_executor_never_raises (behavior : ScriptBehavior) :
    ((execute_script_safely behavior).success = true ↔
        ∃ out err, behavior = .completes out err)
    ∧ (∀ msg, behavior = .raises msg →
        (execute_script_safely behavior).success = false ∧
        (execute_script_safely behavior).error = some msg ∧
        (execute_script_safely behavior).stderr = msg ∧
        (execute_script_safely behavior).stdout = [])
    ∧ (∀ out err, behavior = .completes out err →
        (execute_script_safely behavior).success = true ∧
        (execute_script_safely behavior).stdout = out ∧
        (execute_script_safely behavior).stderr = err ∧
        (execute_script_safely behavior).error = none)
    ∧ "open".toList ∉ safe_builtins ∧ "__import__".toList ∉ safe_builtins := by
  refine ⟨?_, ?_, ?_, by decide, by decide⟩
  · cases behavior <;> simp [execute_script_safely]
  · intro msg h
    subst h
    simp [execute_script_safely]
  · intro out err h
    subst h
    simp [execute_script_safely]

/-- Witness for C6 on a script raising a NameError for `open`. -/
theorem C6_witness :
    (execute_script_safely (.raises "NameError: name open is not defined".toList)).success = false
    ∧ (execute_script_safely (.raises "NameError: name open is not defined".toList)).error =
        some "NameError: name open is not defined".toList :=
  have h := (C6_executor_never_raises
    (.raises "NameError: name open is not defined".toList)).2.1 _ rfl
  ⟨h.1, h.2.1⟩

/-- The retry loop makes at most one attempt, and records at most one
backoff wait, per remaining attempt number. -/
theorem makeApiCallGo_bounds (att : ℕ → AttemptOutcome) :
    ∀ l, (makeApiCallGo att l).2.2 ≤ l.length ∧
      ((makeApiCallGo att l).2.1).length ≤ l.length := by
  intro l
  induction l with
  | nil => simp [makeApiCallGo]
  | cons a l ih =>
    rcases ha : att a with c | _ | ⟨code, txt⟩ | m
    · simp [makeApiCallGo, ha] <;> omega
    · simp [makeApiCallGo, ha] <;> omega
    · simp [makeApiCallGo, ha] <;> omega
    · by_cases h2 : a = 3 - 1
      · subst h2
        simp [makeApiCallGo, ha] <;> omega
      · simp [makeApiCallGo, ha, h2] <;> omega

/-- Each backoff wait recorded by the retry loop has the value dictated by
its attempt number: `2^attempt + 3` after a 429 response, `2^attempt + 2`
after a transport exception. -/
theorem make_api_call_waits (att : ℕ → AttemptOutcome) :
    ∀ k, k < ((make_api_call att).2.1).length →
      (att k = .rateLimited ∧ (make_api_call att).2.1.getD k 0 = 2 ^ k + 3) ∨
      (∃ m, att k = .exn m ∧ (make_api_call att).2.1.getD k 0 = 2 ^ k + 2) := by
  rcases h0 : att 0 with c0 | _ | ⟨n0, t0⟩ | m0 <;>
    rcases h1 : att 1 with c1 | _ | ⟨n1, t1⟩ | m1 <;>
      rcases h2 : att 2 with c2 | _ | ⟨n2, t2⟩ | m2 <;>
        simp [make_api_call, makeApiCallGo, h0, h1, h2] <;>
          (intro k hk; interval_cases k <;> simp [h0, h1, h2])

/-- Whatever the attempt outcomes, the retry loop resolves to a returned
value: a successful content, an API-error string, the rate-limit exhaustion
string, or the last-attempt exception string. -/
theorem makeApiCallGo_outcome (att : ℕ → AttemptOutcome) :
    ∀ l : List ℕ,
      (∃ a ∈ l, ∃ c, att a = .ok c ∧ (makeApiCallGo att l).1 = c) ∨
      (∃ a ∈ l, ∃ code txt, att a = .httpError code txt ∧
        (makeApiCallGo att l).1 = apiErrorText code txt) ∨
      (makeApiCallGo att l).1 = failedAfterText ∨
      (∃ m, att 2 = .exn m ∧ (makeApiCallGo att l).1 = requestFailedText m) := by
  intro l
  induction l with
  | nil => exact Or.inr (Or.inr (Or.inl rfl))
  | cons a l ih =>
    rcases ha : att a with c | _ | ⟨code, txt⟩ | m
    · exact Or.inl ⟨a, by simp, c, ha, by simp [makeApiCallGo, ha]⟩
    · have hstep : (makeApiCallGo att (a :: l)).1 = (makeApiCallGo att l).1 := by
        simp [makeApiCallGo, ha]
      rcases ih with ⟨b, hb, c, hc, he⟩ | ⟨b, hb, code, txt, hc, he⟩ | he | ⟨m, hc, he⟩
      · exact Or.inl ⟨b, by simp [hb], c, hc, hstep.trans he⟩
      · exact Or.inr (Or.inl ⟨b, by simp [hb], code, txt, hc, hstep.trans he⟩)
      · exact Or.inr (Or.inr (Or.inl (hstep.trans he)))
      · exact Or.inr (Or.inr (Or.inr ⟨m, hc, hstep.trans he⟩))
    · exact Or.inr (Or.inl ⟨a, by simp, code, txt, ha, by simp [makeApiCallGo, ha]⟩)
    · by_cases hlast : a = 3 - 1
      · subst hlast
        exact Or.inr (Or.inr (Or.inr ⟨m, by simpa using ha, by simp [makeApiCallGo, ha]⟩))
      · have hstep : (makeApiCallGo att (a :: l)).1 = (makeApiCallGo att l).1 := by
          simp [makeApiCallGo, ha, hlast]
        rcases ih with ⟨b, hb, c, hc, he⟩ | ⟨b, hb, code, txt, hc, he⟩ | he | ⟨m2, hc, he⟩
        · exact Or.inl ⟨b, by simp [hb], c, hc, hstep.trans he⟩
        · exact Or.inr (Or.inl ⟨b, by simp [hb], code, txt, hc, hstep.trans he⟩)
        · exact Or.inr (Or.inr (Or.inl (hstep.trans he)))
        · exact Or.inr (Or.inr (Or.inr ⟨m2, hc, hstep.trans he⟩))

/-- C7: `make_api_call` attempts the request at most 3 times, sleeps
`2^attempt + 3` after a 429 and `2^attempt + 2` after a transport exception
between attempts, and in every outcome — success, rate-limit exhaustion,
non-200 non-429 response, or repeated exceptions — returns a response value
(answer text or terminal error string) to its caller. -/
theorem C7_api_retry (att : ℕ → AttemptOutcome) :
    (make_api_call att).2.2 ≤ 3
    ∧ ((make_api_call att).2.1).length ≤ 3
    ∧ (∀ k, k < ((make_api_call att).2.1).length →
        (att k = .rateLimited ∧ (make_api_call att).2.1.getD k 0 = 2 ^ k + 3) ∨
        (∃ m, att k = .exn m ∧ (make_api_call att).2.1.getD k 0 = 2 ^ k + 2))
    ∧ ((∃ k, k < 3 ∧ ∃ c, att k = .ok c ∧ (make_api_call att).1 = c) ∨
       (∃ k, k < 3 ∧ ∃ code txt, att k = .httpError code txt ∧
         (make_api_call att).1 = apiErrorText code txt) ∨
       (make_api_call att).1 = failedAfterText ∨
       (∃ m, att 2 = .exn m ∧ (make_api_call att).1 = requestFailedText m)) := by
  have hmem3 : ∀ a : ℕ, a ∈ ([0, 1, 2] : List ℕ) → a < 3 := by
    intro a ha
    simp at ha
    rcases ha with rfl | rfl | rfl <;> omega
  refine ⟨by simpa using (makeApiCallGo_bounds att [0, 1, 2]).1,
          by simpa using (makeApiCallGo_bounds att [0, 1, 2]).2,
          make_api_call_waits att, ?_⟩
  rcases makeApiCallGo_outcome att [0, 1, 2] with
    ⟨a, hal, c, hc, he⟩ | ⟨a, hal, code, txt, hc, he⟩ | he | hd
  · exact Or.inl ⟨a, hmem3 a hal, c, hc, he⟩
  · exact Or.inr (Or.inl ⟨a, hmem3 a hal, code, txt, hc, he⟩)
  · exact Or.inr (Or.inr (Or.inl he))
  · exact Or.inr (Or.inr (Or.inr hd))

/-- Witness for C7: a 429 on the first attempt followed by a success. -/
theorem C7_witness :
    (make_api_call (fun k => if k = 0 then .rateLimited else .ok "hi".toList)).2.2 ≤ 3
    ∧ ((make_api_call (fun k => if k = 0 then .rateLimited else .ok "hi".toList)).2.1).getD 0 0 =
        2 ^ 0 + 3 := by
  have h := C7_api_retry (fun k => if k = 0 then .rateLimited else .ok "hi".toList)
  refine ⟨h.1, ?_⟩
  rcases h.2.2.1 0 (by decide) with ⟨_, hw⟩ | ⟨m, hm, _⟩
  · exact hw
  · simp at hm

/-- C8: for either supported method, and for every behavior of the model
gateway, script executor, chunker and filesystem oracles (including raised
exceptions and error returns), `manual_query_processor` resolves to a text
answer or explicit error text and never propagates an exception. -/
theorem C8_processor_never_raises (xenv : ExtractionEnv) (renv : RagEnv)
    (prompt method file_content : List Char)
    (hm : method = "extraction".toList ∨ method = "reasoning".toList) :
    ∃ s, manual_query_processor xenv renv prompt method file_content = .ok s := by
  rcases hm with rfl | rfl
  · unfold manual_query_processor
    rw [if_pos rfl]
    rcases htw : xenv.tempWrite with e | u <;> simp [htw]
  · unfold manual_query_processor
    rw [if_neg (by decide), if_pos rfl]
    exact ⟨_, rfl⟩

/-- Witness for C8 with a failing temp-file write on the extraction path. -/
theorem C8_witness :
    ∃ s, manual_query_processor
      ⟨.error "disk full".toList,
       fun _ => ⟨.error "x".toList, .error "x".toList, .error "x".toList⟩⟩
      ⟨[], [], fun _ _ => 0, .error "boom".toList⟩
      "q".toList "extraction".toList "doc".toList = .ok s :=
  C8_processor_never_raises _ _ "q".toList "extraction".toList "doc".toList (Or.inl rfl)

/-- C9: caching embeddings for some content and chunk size, then reading the
cache back for the same content, returns exactly the stored chunks and
embeddings when the chunk size matches (with no gateway involvement — the
lookup consults only the cache state), and misses when it differs. -/
theorem C9_cache_roundtrip (hash : List Char → List Char) (st : CacheState) (content : List Char)
    (chunks : List (List Char)) (embeddings : List (List ℚ)) (chunk_size other_size : ℕ)
    (hne : other_size ≠ chunk_size) :
    get_cached_embeddings hash (cache_embeddings hash st content chunks embeddings chunk_size)
        content chunk_size = some ⟨hash content, chunks, embeddings, chunks.length⟩
    ∧ get_cached_embeddings hash (cache_embeddings hash st content chunks embeddings chunk_size)
        content other_size = none := by
  constructor
  · simp [get_cached_embeddings, cache_embeddings]
  · simp [get_cached_embeddings, cache_embeddings, Ne.symm hne]

/-- Witness for C9 with the identity hash, chunk size 1000 and a mismatched
request at 500. -/
theorem C9_witness :
    get_cached_embeddings (fun c => c)
        (cache_embeddings (fun c => c) ⟨fun _ => none, fun _ => none⟩
          "doc".toList [['d']] [[(1 : ℚ)]] 1000)
        "doc".toList 1000 = some ⟨"doc".toList, [['d']], [[(1 : ℚ)]], [['d']].length⟩
    ∧ get_cached_embeddings (fun c => c)
        (cache_embeddings (fun c => c) ⟨fun _ => none, fun _ => none⟩
          "doc".toList [['d']] [[(1 : ℚ)]] 1000)
        "doc".toList 500 = none :=
  C9_cache_roundtrip (fun c => c) ⟨fun _ => none, fun _ => none⟩ "doc".toList
    [['d']] [[(1 : ℚ)]] 1000 500 (by decide)
